import Mathlib

/-!
Shallow embedding of the MCMC sampling engine (NUTS and HMC samplers) with
exact real arithmetic in place of floating point.  Positions and momenta are
maps from variable names (an arbitrary type `ι` with decidable equality) to
reals; the model supplies the list of free-variable names, the log-density and
its gradient.  Randomness is made explicit: a uniform stream `r : ℕ → ℝ` and a
normal stream `g : ℕ → ℝ` are consumed at explicit, threaded indices, so every
run is a deterministic function of the streams.  Console logging and trace
collection are omitted; everything the claims mention is embedded.
-/

noncomputable section

open scoped Classical

namespace MC

/-- A probabilistic model: free-variable names, log-density and gradient
(`model.logProbAndGradient` in the source provides both values). -/
structure Model (ι : Type) where
  names : List ι
  logProb : (ι → ℝ) → ℝ
  grad : (ι → ℝ) → ι → ℝ

variable {ι : Type} [DecidableEq ι]

/-- Pointwise update on the listed variable names only, leaving all other
coordinates untouched (the source mutates exactly the keys of the maps). -/
def updOn (names : List ι) (f g : ι → ℝ) : ι → ℝ :=
  fun x => if x ∈ names then f x else g x

namespace NUTS

/-- First stage of a leapfrog step: half-step momentum with the gradient at
the current position. -/
def lfPHalf (m : Model ι) (position momentum : ι → ℝ) (stepSize : ℝ) :
    ι → ℝ :=
  updOn m.names (fun n => momentum n + stepSize / 2 * m.grad position n)
    momentum

/-- Second stage of a leapfrog step: full-step position with the half-updated
momentum. -/
def lfPos (m : Model ι) (position momentum : ι → ℝ) (stepSize : ℝ) :
    ι → ℝ :=
  updOn m.names
    (fun n => position n + stepSize * lfPHalf m position momentum stepSize n)
    position

/-- Third stage of a leapfrog step: half-step momentum with the gradient at
the new position. -/
def lfMom (m : Model ι) (position momentum : ι → ℝ) (stepSize : ℝ) :
    ι → ℝ :=
  updOn m.names
    (fun n => lfPHalf m position momentum stepSize n +
      stepSize / 2 * m.grad (lfPos m position momentum stepSize) n)
    (lfPHalf m position momentum stepSize)

/-- One leapfrog step with signed step size `h`: half-step momentum, full-step
position, half-step momentum. -/
def leapfrog (m : Model ι) (position momentum : ι → ℝ) (stepSize : ℝ) :
    (ι → ℝ) × (ι → ℝ) :=
  (lfPos m position momentum stepSize, lfMom m position momentum stepSize)

/-- Hamiltonian (total energy): negative log-density plus kinetic energy
`Σ ½ p²` over the variable names. -/
def hamiltonian (m : Model ι) (position momentum : ι → ℝ) : ℝ :=
  -m.logProb position +
    (m.names.map fun n => 0.5 * momentum n * momentum n).sum

/-- Dot product of the position difference `pos⁺ − pos⁻` with a momentum,
summed over the variable names. -/
def deltaDot (names : List ι) (positionMinus positionPlus momentum : ι → ℝ) :
    ℝ :=
  (names.map fun n => (positionPlus n - positionMinus n) * momentum n).sum

/-- U-turn test between the two outer edges of a trajectory: declared when the
displacement has negative dot product with either endpoint momentum. -/
def isUTurn (names : List ι) (positionMinus positionPlus momentumMinus
    momentumPlus : ι → ℝ) : Prop :=
  deltaDot names positionMinus positionPlus momentumPlus < 0 ∨
    deltaDot names positionMinus positionPlus momentumMinus < 0

/-- Maximum energy change before a leaf counts as divergent. -/
def deltaMax : ℝ := 1000

/-- The record returned by `buildTree`; `nLeapfrog` is instrumentation only:
it counts how many leapfrog evaluations were performed while building the
tree (the source performs them as side effects). -/
structure Tree (ι : Type) where
  positionMinus : ι → ℝ
  positionPlus : ι → ℝ
  momentumMinus : ι → ℝ
  momentumPlus : ι → ℝ
  positionPrime : ι → ℝ
  nValid : ℕ
  stop : Prop
  alpha : ℝ
  nAlpha : ℕ
  nLeapfrog : ℕ

/-- Recursive doubling procedure.  `k` is the position in the uniform random
stream `r`; the returned index accounts for the single uniform draw consumed
by each combine step.  The base case takes one leapfrog step in the requested
direction; a leaf is valid iff `slice ≤ exp(H0 − H)` and stops on invalidity
or on an energy change beyond `deltaMax`.  The recursive case builds the
first half, short-circuits if it stopped, otherwise builds the second half
from the extending edge, combines the outer edges by direction, checks a
U-turn, and re-selects the candidate from the second half with probability
`nValid₂ / max (nValid₁ + nValid₂) 1`. -/
def buildTree (m : Model ι) (r : ℕ → ℝ) (position momentum : ι → ℝ)
    (slice : ℝ) (direction : ℤ) (depth : ℕ) (stepSize : ℝ) (H0 : ℝ)
    (k : ℕ) : Tree ι × ℕ :=
  match depth with
  | 0 =>
    let s := leapfrog m position momentum ((direction : ℝ) * stepSize)
    let H := hamiltonian m s.1 s.2
    let valid := slice ≤ Real.exp (H0 - H)
    ({ positionMinus := s.1, positionPlus := s.1,
       momentumMinus := s.2, momentumPlus := s.2,
       positionPrime := s.1,
       nValid := if valid then 1 else 0,
       stop := ¬valid ∨ H0 - H > deltaMax,
       alpha := min 1 (Real.exp (H0 - H)),
       nAlpha := 1, nLeapfrog := 1 }, k)
  | depth + 1 =>
    let t1k := buildTree m r position momentum slice direction depth stepSize
      H0 k
    if t1k.1.stop then t1k
    else
      let position2 := if direction = 1 then t1k.1.positionPlus
        else t1k.1.positionMinus
      let momentum2 := if direction = 1 then t1k.1.momentumPlus
        else t1k.1.momentumMinus
      let t2k := buildTree m r position2 momentum2 slice direction depth
        stepSize H0 t1k.2
      let positionMinus := if direction = 1 then t1k.1.positionMinus
        else t2k.1.positionMinus
      let positionPlus := if direction = 1 then t2k.1.positionPlus
        else t1k.1.positionPlus
      let momentumMinus := if direction = 1 then t1k.1.momentumMinus
        else t2k.1.momentumMinus
      let momentumPlus := if direction = 1 then t2k.1.momentumPlus
        else t1k.1.momentumPlus
      let uTurn := isUTurn m.names positionMinus positionPlus momentumMinus
        momentumPlus
      let acceptProb := (t2k.1.nValid : ℝ) /
        ((max (t1k.1.nValid + t2k.1.nValid) 1 : ℕ) : ℝ)
      let positionPrime := if r t2k.2 < acceptProb then t2k.1.positionPrime
        else t1k.1.positionPrime
      ({ positionMinus := positionMinus, positionPlus := positionPlus,
         momentumMinus := momentumMinus, momentumPlus := momentumPlus,
         positionPrime := positionPrime,
         nValid := t1k.1.nValid + t2k.1.nValid,
         stop := t1k.1.stop ∨ t2k.1.stop ∨ uTurn,
         alpha := t1k.1.alpha + t2k.1.alpha,
         nAlpha := t1k.1.nAlpha + t2k.1.nAlpha,
         nLeapfrog := t1k.1.nLeapfrog + t2k.1.nLeapfrog }, t2k.2 + 1)

/-- Mutable state of the outer doubling loop of `sample`: trajectory edges,
running candidate, accumulated statistics, and the uniform-stream index.
`nLeapfrog` is instrumentation counting leapfrog evaluations. -/
structure LoopState (ι : Type) where
  positionMinus : ι → ℝ
  positionPlus : ι → ℝ
  momentumMinus : ι → ℝ
  momentumPlus : ι → ℝ
  proposed : ι → ℝ
  nValid : ℕ
  alpha : ℝ
  nAlpha : ℕ
  nLeapfrog : ℕ
  rIdx : ℕ

/-- One round of the outer doubling loop: draw a direction, build a subtree at
the current depth from the corresponding edge, update that edge, re-select the
running candidate with probability `nValid(tree) / nValid(accumulated)` when
the subtree did not stop (the uniform draw is consumed exactly in that case),
accumulate statistics, and report whether the loop must stop (subtree stop or
U-turn between the new combined outer edges). -/
def doubleRound (m : Model ι) (r : ℕ → ℝ) (slice : ℝ) (H0 stepSize : ℝ)
    (depth : ℕ) (st : LoopState ι) : LoopState ι × Prop :=
  let direction : ℤ := if r st.rIdx < 0.5 then -1 else 1
  let bt := if direction = 1 then
      buildTree m r st.positionPlus st.momentumPlus slice direction depth
        stepSize H0 (st.rIdx + 1)
    else
      buildTree m r st.positionMinus st.momentumMinus slice direction depth
        stepSize H0 (st.rIdx + 1)
  let positionPlus := if direction = 1 then bt.1.positionPlus
    else st.positionPlus
  let momentumPlus := if direction = 1 then bt.1.momentumPlus
    else st.momentumPlus
  let positionMinus := if direction = 1 then st.positionMinus
    else bt.1.positionMinus
  let momentumMinus := if direction = 1 then st.momentumMinus
    else bt.1.momentumMinus
  let proposed := if ¬bt.1.stop ∧ r bt.2 < (bt.1.nValid : ℝ) / (st.nValid : ℝ)
    then bt.1.positionPrime else st.proposed
  let k2 := if bt.1.stop then bt.2 else bt.2 + 1
  ({ positionMinus := positionMinus, positionPlus := positionPlus,
     momentumMinus := momentumMinus, momentumPlus := momentumPlus,
     proposed := proposed,
     nValid := st.nValid + bt.1.nValid,
     alpha := st.alpha + bt.1.alpha,
     nAlpha := st.nAlpha + bt.1.nAlpha,
     nLeapfrog := st.nLeapfrog + bt.1.nLeapfrog,
     rIdx := k2 },
   bt.1.stop ∨ isUTurn m.names positionMinus positionPlus momentumMinus
     momentumPlus)

/-- The outer doubling loop `while (!stop && depth < maxTreeDepth)`, with the
remaining number of rounds `fuel = maxTreeDepth − depth` made explicit. -/
def doubleLoop (m : Model ι) (r : ℕ → ℝ) (slice : ℝ) (H0 stepSize : ℝ) :
    ℕ → ℕ → LoopState ι → LoopState ι
  | _, 0, st => st
  | depth, fuel + 1, st =>
    let rd := doubleRound m r slice H0 stepSize depth st
    if rd.2 then rd.1 else doubleLoop m r slice H0 stepSize (depth + 1) fuel
      rd.1

end NUTS

/-- The NUTS sampler object built by the constructor: configuration plus the
dual-averaging constants. -/
structure NUTS where
  stepSize : ℝ
  maxTreeDepth : ℕ
  targetAcceptance : ℝ
  mu : ℝ
  gamma : ℝ
  t0 : ℝ
  kappa : ℝ

/-- The NUTS constructor: stores the configuration unconditionally and sets
the dual-averaging constants `μ = log(10·stepSize)`, `γ = 0.05`, `t0 = 10`,
`κ = 0.75`. -/
def NUTS.new (stepSize : ℝ) (maxTreeDepth : ℕ) (targetAcceptance : ℝ) :
    NUTS :=
  { stepSize := stepSize, maxTreeDepth := maxTreeDepth,
    targetAcceptance := targetAcceptance,
    mu := Real.log (10 * stepSize), gamma := 0.05, t0 := 10, kappa := 0.75 }

namespace NUTS

/-- Mutable state carried across outer iterations of `NUTS.sample`: current
position, current (adapted) step size, the dual-averaging state, and the two
random-stream indices. -/
structure SamplerState (ι : Type) where
  current : ι → ℝ
  stepSize : ℝ
  logStepSize : ℝ
  logStepSizeBar : ℝ
  hBar : ℝ
  rIdx : ℕ
  gIdx : ℕ

/-- Draw one standard-normal value per variable name, in order, from the
normal stream `g` starting at index `k`. -/
def drawMomentum (names : List ι) (g : ℕ → ℝ) (k : ℕ) : (ι → ℝ) × ℕ :=
  names.foldl (fun acc n => (Function.update acc.1 n (g acc.2), acc.2 + 1))
    ((fun _ => 0 : ι → ℝ), k)

/-- The momentum drawn at the start of an outer iteration. -/
def nutsMomentum (m : Model ι) (g : ℕ → ℝ) (st : SamplerState ι) : ι → ℝ :=
  (drawMomentum m.names g st.gIdx).1

/-- The initial Hamiltonian `H0` of an outer iteration. -/
def nutsH0 (m : Model ι) (g : ℕ → ℝ) (st : SamplerState ι) : ℝ :=
  hamiltonian m st.current (nutsMomentum m g st)

/-- The slice variable of an outer iteration: `u = rand · exp(−H0)`,
consuming one uniform draw. -/
def nutsSlice (m : Model ι) (r g : ℕ → ℝ) (st : SamplerState ι) : ℝ :=
  r st.rIdx * Real.exp (-(nutsH0 m g st))

/-- The outer doubling loop of one iteration, started from the current state
as both edges with `nValid = 1`, `alpha = 0`, `nAlpha = 0`, and run for at
most `maxTreeDepth` rounds. -/
def nutsLoop (c : NUTS) (m : Model ι) (r g : ℕ → ℝ) (st : SamplerState ι) :
    LoopState ι :=
  doubleLoop m r (nutsSlice m r g st) (nutsH0 m g st) st.stepSize 0
    c.maxTreeDepth
    { positionMinus := st.current, positionPlus := st.current,
      momentumMinus := nutsMomentum m g st,
      momentumPlus := nutsMomentum m g st,
      proposed := st.current, nValid := 1, alpha := 0, nAlpha := 0,
      nLeapfrog := 0, rIdx := st.rIdx + 1 }

/-- One outer iteration of `NUTS.sample` (iteration index `i`, 0-based):
draw momentum, compute `H0` and the slice, run the doubling loop, move to the
proposed position, then update the dual-averaging state if `i < nWarmup`,
freeze the step size to `exp(logStepSizeBar)` if `i = nWarmup`, and leave the
adapter untouched otherwise. -/
def nutsStep (c : NUTS) (m : Model ι) (r g : ℕ → ℝ) (nWarmup i : ℕ)
    (st : SamplerState ι) : SamplerState ι :=
  let out := nutsLoop c m r g st
  let iterAcceptRate := out.alpha / ((max out.nAlpha 1 : ℕ) : ℝ)
  let gIdx := (drawMomentum m.names g st.gIdx).2
  if i < nWarmup then
    let eta := 1 / ((i : ℝ) + 1 + c.t0)
    let hBar := (1 - eta) * st.hBar +
      eta * (c.targetAcceptance - iterAcceptRate)
    let logStepSize := c.mu - Real.sqrt ((i : ℝ) + 1) / c.gamma * hBar
    let logEta := ((i : ℝ) + 1) ^ (-c.kappa)
    let logStepSizeBar := logEta * logStepSize +
      (1 - logEta) * st.logStepSizeBar
    { current := out.proposed, stepSize := Real.exp logStepSize,
      logStepSize := logStepSize, logStepSizeBar := logStepSizeBar,
      hBar := hBar, rIdx := out.rIdx, gIdx := gIdx }
  else if i = nWarmup then
    { current := out.proposed, stepSize := Real.exp st.logStepSizeBar,
      logStepSize := st.logStepSize, logStepSizeBar := st.logStepSizeBar,
      hBar := st.hBar, rIdx := out.rIdx, gIdx := gIdx }
  else
    { current := out.proposed, stepSize := st.stepSize,
      logStepSize := st.logStepSize, logStepSizeBar := st.logStepSizeBar,
      hBar := st.hBar, rIdx := out.rIdx, gIdx := gIdx }

/-- The sampler state at the start of `NUTS.sample`'s loop:
`logStepSize = log stepSize`, `logStepSizeBar = 0`, `hBar = 0`. -/
def initState (c : NUTS) (initialValues : ι → ℝ) : SamplerState ι :=
  { current := initialValues, stepSize := c.stepSize,
    logStepSize := Real.log c.stepSize, logStepSizeBar := 0, hBar := 0,
    rIdx := 0, gIdx := 0 }

/-- The sampler state after the first `n` outer iterations of
`NUTS.sample`. -/
def nutsRun (c : NUTS) (m : Model ι) (r g : ℕ → ℝ) (nWarmup : ℕ)
    (init : SamplerState ι) : ℕ → SamplerState ι
  | 0 => init
  | n + 1 => nutsStep c m r g nWarmup n (nutsRun c m r g nWarmup init n)

end NUTS

/-- The HMC sampler object built by the constructor. -/
structure HamiltonianMC where
  stepSize : ℝ
  nSteps : ℕ

/-- The HMC constructor: stores step size and step count unconditionally. -/
def HamiltonianMC.new (stepSize : ℝ) (nSteps : ℕ) : HamiltonianMC :=
  { stepSize := stepSize, nSteps := nSteps }

end MC

open MC MC.NUTS

/-- C3 counterexample model: one variable, quadratic potential
(`logProb q = −q²/2`, so the gradient is `−q`). -/
def cexModel : MC.Model Unit :=
  { names := [()]
    logProb := fun q => -(q () * q () / 2)
    grad := fun q _ => -(q ()) }

/-- Forward leapfrog step of the C3 counterexample: from position 0,
momentum 1, step size 1. -/
def cexForward : (Unit → ℝ) × (Unit → ℝ) :=
  leapfrog cexModel (fun _ => 0) (fun _ => 1) 1

/-- C3 claimed backward step: step −1 from the forward result with negated
momentum (the combination the claim asserts returns to the start). -/
def cexBackward : (Unit → ℝ) × (Unit → ℝ) :=
  leapfrog cexModel cexForward.1 (fun n => -(cexForward.2 n)) (-1)

/-- One-variable model with constant log-density 0 and zero gradient, used to
instantiate witnesses on concrete runs. -/
def mzero : MC.Model Unit :=
  { names := [()], logProb := fun _ => 0, grad := fun _ _ => 0 }

/-- One-variable model with constant log-density 1 and zero gradient (so any
state has Hamiltonian −1), used for concrete invalid-leaf inputs. -/
def mone : MC.Model Unit :=
  { names := [()], logProb := fun _ => 1, grad := fun _ _ => 0 }

/-- Uniform stream that always returns 1/2. -/
def rhalf : ℕ → ℝ := fun _ => 1 / 2

/-- Normal stream that always returns 0. -/
def gzero : ℕ → ℝ := fun _ => 0

/-- Concrete NUTS sampler for the C5 counterexample: initial step size 1/10
(so `μ = log 1 = 0`), `maxTreeDepth = 1`, `targetAcceptance = 4/5`. -/
def cexC : MC.NUTS := MC.NUTS.new (1 / 10) 1 (4 / 5)

/-- Initial sampler state of the C5 counterexample run: all positions 0. -/
def cexInit : MC.NUTS.SamplerState Unit := MC.NUTS.initState cexC (fun _ => 0)

/-- First half-subtree of the C1 witness: depth 0, trivial model, slice 1/2,
forward direction, step size 1, `H0 = 0`. -/
def w1 : MC.NUTS.Tree Unit × ℕ :=
  buildTree mzero rhalf (fun _ => 0) (fun _ => 0) (1 / 2) 1 0 1 0 0

/-- Extending-edge position for the second half-subtree of the C1 witness. -/
def w1pos2 : Unit → ℝ :=
  if (1 : ℤ) = 1 then w1.1.positionPlus else w1.1.positionMinus

/-- Extending-edge momentum for the second half-subtree of the C1 witness. -/
def w1mom2 : Unit → ℝ :=
  if (1 : ℤ) = 1 then w1.1.momentumPlus else w1.1.momentumMinus

/-- Second half-subtree of the C1 witness, built from the extending edge. -/
def w2 : MC.NUTS.Tree Unit × ℕ :=
  buildTree mzero rhalf w1pos2 w1mom2 (1 / 2) 1 0 1 0 w1.2

/-- Initial loop state of the C1 witness for the outer doubling loop. -/
def wLoopSt : MC.NUTS.LoopState Unit :=
  { positionMinus := fun _ => 0, positionPlus := fun _ => 0,
    momentumMinus := fun _ => 0, momentumPlus := fun _ => 0,
    proposed := fun _ => 0, nValid := 1, alpha := 0, nAlpha := 0,
    nLeapfrog := 0, rIdx := 0 }

/-- Direction drawn in the C1 witness round (the stream yields 1/2, so the
direction is forward). -/
def wdir : ℤ := if rhalf wLoopSt.rIdx < 0.5 then -1 else 1

/-- Subtree built by the C1 witness round of the outer doubling loop. -/
def wbt : MC.NUTS.Tree Unit × ℕ :=
  if wdir = 1 then
    buildTree mzero rhalf wLoopSt.positionPlus wLoopSt.momentumPlus (1 / 2)
      wdir 0 1 0 (wLoopSt.rIdx + 1)
  else
    buildTree mzero rhalf wLoopSt.positionMinus wLoopSt.momentumMinus (1 / 2)
      wdir 0 1 0 (wLoopSt.rIdx + 1)

namespace MC

namespace NUTS

variable {ι : Type} [DecidableEq ι]

lemma lfPHalf_mem (m : Model ι) (q p : ι → ℝ) (h : ℝ) (x : ι)
    (hx : x ∈ m.names) :
    lfPHalf m q p h x = p x + h / 2 * m.grad q x := if_pos hx

lemma lfPHalf_not (m : Model ι) (q p : ι → ℝ) (h : ℝ) (x : ι)
    (hx : x ∉ m.names) : lfPHalf m q p h x = p x := if_neg hx

lemma lfPos_mem (m : Model ι) (q p : ι → ℝ) (h : ℝ) (x : ι)
    (hx : x ∈ m.names) :
    lfPos m q p h x = q x + h * lfPHalf m q p h x := if_pos hx

lemma lfPos_not (m : Model ι) (q p : ι → ℝ) (h : ℝ) (x : ι)
    (hx : x ∉ m.names) : lfPos m q p h x = q x := if_neg hx

lemma lfMom_mem (m : Model ι) (q p : ι → ℝ) (h : ℝ) (x : ι)
    (hx : x ∈ m.names) :
    lfMom m q p h x =
      lfPHalf m q p h x + h / 2 * m.grad (lfPos m q p h) x := if_pos hx

lemma lfMom_not (m : Model ι) (q p : ι → ℝ) (h : ℝ) (x : ι)
    (hx : x ∉ m.names) : lfMom m q p h x = lfPHalf m q p h x := if_neg hx

lemma lfPHalf_back (m : Model ι) (q p : ι → ℝ) (h : ℝ) :
    lfPHalf m (lfPos m q p h) (lfMom m q p h) (-h) = lfPHalf m q p h := by
  funext x
  by_cases hx : x ∈ m.names
  · rw [lfPHalf_mem m (lfPos m q p h) (lfMom m q p h) (-h) x hx,
      lfMom_mem m q p h x hx]
    ring
  · rw [lfPHalf_not m (lfPos m q p h) (lfMom m q p h) (-h) x hx,
      lfMom_not m q p h x hx]

lemma lfPos_back (m : Model ι) (q p : ι → ℝ) (h : ℝ) :
    lfPos m (lfPos m q p h) (lfMom m q p h) (-h) = q := by
  funext x
  by_cases hx : x ∈ m.names
  · rw [lfPos_mem m (lfPos m q p h) (lfMom m q p h) (-h) x hx,
      lfPHalf_back m q p h, lfPos_mem m q p h x hx]
    ring
  · rw [lfPos_not m (lfPos m q p h) (lfMom m q p h) (-h) x hx,
      lfPos_not m q p h x hx]

lemma lfMom_back (m : Model ι) (q p : ι → ℝ) (h : ℝ) :
    lfMom m (lfPos m q p h) (lfMom m q p h) (-h) = p := by
  funext x
  by_cases hx : x ∈ m.names
  · rw [lfMom_mem m (lfPos m q p h) (lfMom m q p h) (-h) x hx,
      lfPHalf_back m q p h, lfPos_back m q p h,
      lfPHalf_mem m q p h x hx]
    ring
  · rw [lfMom_not m (lfPos m q p h) (lfMom m q p h) (-h) x hx,
      lfPHalf_back m q p h, lfPHalf_not m q p h x hx]

lemma lfPHalf_flip (m : Model ι) (q p : ι → ℝ) (h : ℝ) :
    lfPHalf m (lfPos m q p h) (fun n => -(lfMom m q p h n)) h =
      fun n => -(lfPHalf m q p h n) := by
  funext x
  by_cases hx : x ∈ m.names
  · simp only [lfPHalf_mem m (lfPos m q p h)
      (fun n => -(lfMom m q p h n)) h x hx, lfMom_mem m q p h x hx]
    ring
  · simp only [lfPHalf_not m (lfPos m q p h)
      (fun n => -(lfMom m q p h n)) h x hx, lfMom_not m q p h x hx]

lemma lfPos_flip (m : Model ι) (q p : ι → ℝ) (h : ℝ) :
    lfPos m (lfPos m q p h) (fun n => -(lfMom m q p h n)) h = q := by
  funext x
  by_cases hx : x ∈ m.names
  · simp only [lfPos_mem m (lfPos m q p h)
      (fun n => -(lfMom m q p h n)) h x hx, lfPHalf_flip m q p h,
      lfPos_mem m q p h x hx]
    ring
  · simp only [lfPos_not m (lfPos m q p h)
      (fun n => -(lfMom m q p h n)) h x hx, lfPos_not m q p h x hx]

lemma leapfrog_zero (m : Model ι) (hg : ∀ f x, m.grad f x = 0) (q : ι → ℝ)
    (h : ℝ) : leapfrog m q (fun _ => 0) h = (q, fun _ => 0) := by
  have h1 : lfPHalf m q (fun _ => 0) h = fun _ => 0 := by
    funext x
    by_cases hx : x ∈ m.names
    · simp only [lfPHalf_mem m q (fun _ => 0) h x hx, hg]
      ring
    · exact lfPHalf_not m q (fun _ => 0) h x hx
  have h2 : lfPos m q (fun _ => 0) h = q := by
    funext x
    by_cases hx : x ∈ m.names
    · simp only [lfPos_mem m q (fun _ => 0) h x hx, h1]
      ring
    · exact lfPos_not m q (fun _ => 0) h x hx
  have h3 : lfMom m q (fun _ => 0) h = fun _ => 0 := by
    funext x
    by_cases hx : x ∈ m.names
    · simp only [lfMom_mem m q (fun _ => 0) h x hx, h1, hg]
      ring
    · simp only [lfMom_not m q (fun _ => 0) h x hx, h1]
  exact Prod.ext h2 h3

lemma lfMom_flip (m : Model ι) (q p : ι → ℝ) (h : ℝ) :
    lfMom m (lfPos m q p h) (fun n => -(lfMom m q p h n)) h =
      fun n => -(p n) := by
  funext x
  by_cases hx : x ∈ m.names
  · simp only [lfMom_mem m (lfPos m q p h)
      (fun n => -(lfMom m q p h n)) h x hx, lfPHalf_flip m q p h,
      lfPos_flip m q p h, lfPHalf_mem m q p h x hx]
    ring
  · simp only [lfMom_not m (lfPos m q p h)
      (fun n => -(lfMom m q p h n)) h x hx, lfPHalf_flip m q p h,
      lfPHalf_not m q p h x hx]

end NUTS

end MC

namespace MC.NUTS

lemma hamiltonian_unit (m : Model Unit) (hn : m.names = [()])
    (q p : Unit → ℝ) :
    hamiltonian m q p = -m.logProb q + 0.5 * p () * p () := by
  simp only [hamiltonian, hn, List.map_cons, List.map_nil, List.sum_cons,
    List.sum_nil, add_zero]

lemma leaf_energy (m : Model Unit) (hg : ∀ f x, m.grad f x = 0)
    (hn : m.names = [()]) (q : Unit → ℝ) (s : ℝ) :
    hamiltonian m (leapfrog m q (fun _ => 0) s).1
      (leapfrog m q (fun _ => 0) s).2 = -m.logProb q := by
  rw [leapfrog_zero m hg]
  rw [hamiltonian_unit m hn]
  norm_num

end MC.NUTS

/-- C10: in the base case of `buildTree` the stop flag is exactly
(leaf invalid) OR (energy change beyond `deltaMax = 1000`): the first invalid
leaf halts trajectory growth even when no divergence occurred. -/
theorem buildTree_leaf_stop_iff {ι : Type} [DecidableEq ι] (m : MC.Model ι)
    (r : ℕ → ℝ) (q p : ι → ℝ) (slice : ℝ) (dir : ℤ) (ss H0 : ℝ) (k : ℕ) :
    (buildTree m r q p slice dir 0 ss H0 k).1.stop ↔
      ¬ (slice ≤ Real.exp (H0 - hamiltonian m
          (leapfrog m q p ((dir : ℝ) * ss)).1
          (leapfrog m q p ((dir : ℝ) * ss)).2)) ∨
        H0 - hamiltonian m (leapfrog m q p ((dir : ℝ) * ss)).1
          (leapfrog m q p ((dir : ℝ) * ss)).2 > 1000 := Iff.rfl

/-- C6 amended: every *valid* leaf (`slice ≤ exp(H0 − H)`) is counted:
the base case of `buildTree` returns `nValid ≥ 1` for it.  (A leaf can be
invalid yet non-divergent, in which case `nValid = 0`.) -/
theorem buildTree_valid_leaf_counted {ι : Type} [DecidableEq ι]
    (m : MC.Model ι) (r : ℕ → ℝ) (q p : ι → ℝ) (slice : ℝ) (dir : ℤ)
    (ss H0 : ℝ) (k : ℕ)
    (hvalid : slice ≤ Real.exp (H0 - hamiltonian m
      (leapfrog m q p ((dir : ℝ) * ss)).1
      (leapfrog m q p ((dir : ℝ) * ss)).2)) :
    1 ≤ (buildTree m r q p slice dir 0 ss H0 k).1.nValid := by
  have h : (buildTree m r q p slice dir 0 ss H0 k).1.nValid =
      if slice ≤ Real.exp (H0 - hamiltonian m
        (leapfrog m q p ((dir : ℝ) * ss)).1
        (leapfrog m q p ((dir : ℝ) * ss)).2) then 1 else 0 := rfl
  rw [h, if_pos hvalid]

/-- C6 witness: a concrete valid leaf (slice 1/2, energy change 0) indeed has
`nValid ≥ 1`. -/
theorem buildTree_valid_leaf_counted_witness :
    ((1 / 2 : ℝ) ≤ Real.exp ((-1) - hamiltonian mone
      (leapfrog mone (fun _ => 0) (fun _ => 0) (((1 : ℤ) : ℝ) * 1)).1
      (leapfrog mone (fun _ => 0) (fun _ => 0) (((1 : ℤ) : ℝ) * 1)).2)) ∧
    1 ≤ (buildTree mone rhalf (fun _ => 0) (fun _ => 0) (1 / 2) 1 0 1 (-1)
      0).1.nValid := by
  have hv : (1 / 2 : ℝ) ≤ Real.exp ((-1) - hamiltonian mone
      (leapfrog mone (fun _ => 0) (fun _ => 0) (((1 : ℤ) : ℝ) * 1)).1
      (leapfrog mone (fun _ => 0) (fun _ => 0) (((1 : ℤ) : ℝ) * 1)).2) := by
    rw [leaf_energy mone (fun f x => rfl) rfl]
    norm_num [mone, Real.exp_zero]
  exact ⟨hv, buildTree_valid_leaf_counted mone rhalf _ _ _ 1 1 (-1) 0 hv⟩

/-- C6 counterexample: a non-divergent leaf need not have `nValid ≥ 1`.
With constant log-density 1, start state 0, `H0 = −1` and slice 2 (reachable,
since the slice is drawn from `[0, exp(−H0)) = [0, e)`), the energy change is
0 ≤ 1000 (no divergence) yet the leaf is invalid (`2 > exp 0 = 1`), so
`nValid = 0`. -/
theorem nValid_nondivergent_claim_false :
    (-1 : ℝ) - hamiltonian mone
      (leapfrog mone (fun _ => 0) (fun _ => 0) (((1 : ℤ) : ℝ) * 1)).1
      (leapfrog mone (fun _ => 0) (fun _ => 0) (((1 : ℤ) : ℝ) * 1)).2
      ≤ 1000 ∧
    (buildTree mone rhalf (fun _ => 0) (fun _ => 0) 2 1 0 1 (-1)
      0).1.nValid = 0 := by
  have hH : hamiltonian mone
      (leapfrog mone (fun _ => 0) (fun _ => 0) (((1 : ℤ) : ℝ) * 1)).1
      (leapfrog mone (fun _ => 0) (fun _ => 0) (((1 : ℤ) : ℝ) * 1)).2
      = -1 := by
    rw [leaf_energy mone (fun f x => rfl) rfl]
    norm_num [mone]
  constructor
  · rw [hH]
    norm_num
  · have h : (buildTree mone rhalf (fun _ => 0) (fun _ => 0) 2 1 0 1 (-1)
        0).1.nValid =
        if (2 : ℝ) ≤ Real.exp ((-1) - hamiltonian mone
          (leapfrog mone (fun _ => 0) (fun _ => 0) (((1 : ℤ) : ℝ) * 1)).1
          (leapfrog mone (fun _ => 0) (fun _ => 0) (((1 : ℤ) : ℝ) * 1)).2)
        then 1 else 0 := rfl
    rw [h]
    simp only [hH]
    rw [if_neg (by norm_num [Real.exp_zero])]

/-- C2: in the recursive case of `buildTree`, if the first half-subtree
(depth − 1) stopped, its result is returned unchanged: the second half is
never built, no further uniform draw is consumed, and no further leapfrog
evaluation happens (the whole returned pair, including the instrumentation
counter and the stream index, is the first half's). -/
theorem buildTree_stop_shortcircuit {ι : Type} [DecidableEq ι]
    (m : MC.Model ι) (r : ℕ → ℝ) (q p : ι → ℝ) (slice : ℝ) (dir : ℤ)
    (depth : ℕ) (ss H0 : ℝ) (k : ℕ)
    (hstop : (buildTree m r q p slice dir depth ss H0 k).1.stop) :
    buildTree m r q p slice dir (depth + 1) ss H0 k =
      buildTree m r q p slice dir depth ss H0 k := by
  simp only [buildTree]
  rw [if_pos hstop]

/-- C2 witness: a concrete depth-0 subtree that stops (invalid leaf), whose
depth-1 tree is returned unchanged. -/
theorem buildTree_stop_shortcircuit_witness :
    (buildTree mone rhalf (fun _ => 0) (fun _ => 0) 2 1 0 1 (-1)
      0).1.stop ∧
    buildTree mone rhalf (fun _ => 0) (fun _ => 0) 2 1 (0 + 1) 1 (-1) 0 =
      buildTree mone rhalf (fun _ => 0) (fun _ => 0) 2 1 0 1 (-1) 0 := by
  have hH : hamiltonian mone
      (leapfrog mone (fun _ => 0) (fun _ => 0) (((1 : ℤ) : ℝ) * 1)).1
      (leapfrog mone (fun _ => 0) (fun _ => 0) (((1 : ℤ) : ℝ) * 1)).2
      = -1 := by
    rw [leaf_energy mone (fun f x => rfl) rfl]
    norm_num [mone]
  have hs : (buildTree mone rhalf (fun _ => 0) (fun _ => 0) 2 1 0 1 (-1)
      0).1.stop := by
    refine Or.inl ?_
    rw [hH]
    norm_num [Real.exp_zero]
  exact ⟨hs, buildTree_stop_shortcircuit mone rhalf _ _ 2 1 0 1 (-1) 0 hs⟩

/-- C8 amended: neither constructor validates its configuration.  `NUTS.new`
and `HamiltonianMC.new` always succeed, storing the given step size, depth
and target acceptance unchanged (with `μ = log(10·stepSize)`, `γ = 0.05`,
`t0 = 10`, `κ = 0.75` for NUTS); no ConfigurationError exists. -/
theorem sampler_construction_no_validation :
    (∀ (s : ℝ) (d : ℕ) (t : ℝ), MC.NUTS.new s d t =
      { stepSize := s, maxTreeDepth := d, targetAcceptance := t,
        mu := Real.log (10 * s), gamma := 0.05, t0 := 10, kappa := 0.75 }) ∧
    (∀ (s : ℝ) (n : ℕ), MC.HamiltonianMC.new s n =
      { stepSize := s, nSteps := n }) :=
  ⟨fun _ _ _ => rfl, fun _ _ => rfl⟩

/-- C8 counterexample: construction with invalid configurations (negative
step size, `maxTreeDepth = 0`, `targetAcceptance = 2` for NUTS; negative step
size and `nSteps = 0` for HMC) succeeds and stores those values — it does not
fail fatally. -/
theorem sampler_construction_claim_false :
    MC.NUTS.new (-1) 0 2 =
      { stepSize := -1, maxTreeDepth := 0, targetAcceptance := 2,
        mu := Real.log (10 * (-1)), gamma := 0.05, t0 := 10,
        kappa := 0.75 } ∧
    MC.HamiltonianMC.new (-1) 0 = { stepSize := -1, nSteps := 0 } :=
  ⟨rfl, rfl⟩

/-- C9: `isUTurn` holds iff the displacement `pos⁺ − pos⁻` (dot product
summed over the variable names) has negative dot product with either endpoint
momentum; on one variable, `isUTurn 0 1 1 1` is false and `isUTurn 0 1 1 (−1)`
is true. -/
theorem isUTurn_spec :
    (∀ (ι : Type) (names : List ι) (pm pp mm mp : ι → ℝ),
      isUTurn names pm pp mm mp ↔
        deltaDot names pm pp mp < 0 ∨ deltaDot names pm pp mm < 0) ∧
    ¬ isUTurn [()] (fun _ : Unit => (0 : ℝ)) (fun _ => 1) (fun _ => 1)
      (fun _ => 1) ∧
    isUTurn [()] (fun _ : Unit => (0 : ℝ)) (fun _ => 1) (fun _ => 1)
      (fun _ => -1) := by
  refine ⟨fun ι names pm pp mm mp => Iff.rfl, ?_, ?_⟩
  · norm_num [isUTurn, deltaDot]
  · norm_num [isUTurn, deltaDot]

/-- C3 amended: the leapfrog integrator is exactly time-reversible, but the
inverse is either step `−h` with the momentum kept, or step `h` with the
momentum negated — not both negations at once: for every model, state and
step size, `leapfrog` at step `−h` from `(x', p')` returns `(x, p)` exactly,
and `leapfrog` at step `h` from `(x', −p')` returns `(x, −p)` exactly (so in
particular within any floating-point tolerance). -/
theorem leapfrog_reversible {ι : Type} [DecidableEq ι]
    (m : MC.Model ι) (q p : ι → ℝ) (h : ℝ) :
    leapfrog m (leapfrog m q p h).1 (leapfrog m q p h).2 (-h) = (q, p) ∧
      leapfrog m (leapfrog m q p h).1
        (fun n => -((leapfrog m q p h).2 n)) h = (q, fun n => -(p n)) := by
  constructor
  · exact Prod.ext (lfPos_back m q p h) (lfMom_back m q p h)
  · exact Prod.ext (lfPos_flip m q p h) (lfMom_flip m q p h)

/-- C3 counterexample: the claim's exact recipe — step `−h` applied to the
forward result with *negated* momentum — does not return to the original
state: from (x=0, p=1, h=1) with a quadratic potential the position comes
back as 1, not 0, an error far beyond the 1e-6 tolerance. -/
theorem leapfrog_claim_false :
    cexBackward.1 () = 1 ∧ ¬ |cexBackward.1 () - 0| ≤ 1e-6 := by
  have h1 : cexBackward.1 () = 1 := by
    simp only [cexBackward, cexForward, cexModel, leapfrog, lfPos, lfPHalf,
      lfMom, MC.updOn, List.mem_singleton, if_true, if_pos rfl]
    norm_num
  refine ⟨h1, ?_⟩
  rw [h1]
  norm_num


/-- C1: (a) when `buildTree` combines two half-subtrees (first half not
stopped), the candidate is taken from the second half exactly when the
uniform draw is below `nValid₂ / max (nValid₁ + nValid₂) 1`, else kept from
the first half; (b) in the outer doubling loop, when the new subtree did not
stop, the running candidate is replaced by its candidate exactly when the
uniform draw is below `nValid(subtree) / nValid(accumulated so far)`. -/
theorem nuts_candidate_selection (ι : Type) [DecidableEq ι] :
    (∀ (m : MC.Model ι) (r : ℕ → ℝ) (q p : ι → ℝ) (slice : ℝ) (dir : ℤ)
      (depth : ℕ) (ss H0 : ℝ) (k : ℕ) (t1 : MC.NUTS.Tree ι) (k1 : ℕ)
      (pos2 mom2 : ι → ℝ) (t2 : MC.NUTS.Tree ι) (k2 : ℕ),
      buildTree m r q p slice dir depth ss H0 k = (t1, k1) →
      pos2 = (if dir = 1 then t1.positionPlus else t1.positionMinus) →
      mom2 = (if dir = 1 then t1.momentumPlus else t1.momentumMinus) →
      buildTree m r pos2 mom2 slice dir depth ss H0 k1 = (t2, k2) →
      ¬ t1.stop →
      (buildTree m r q p slice dir (depth + 1) ss H0 k).1.positionPrime =
        (if r k2 < (t2.nValid : ℝ) /
            ((max (t1.nValid + t2.nValid) 1 : ℕ) : ℝ)
         then t2.positionPrime else t1.positionPrime)) ∧
    (∀ (m : MC.Model ι) (r : ℕ → ℝ) (slice H0 ss : ℝ) (depth : ℕ)
      (st : MC.NUTS.LoopState ι) (dir : ℤ) (tree : MC.NUTS.Tree ι) (k2 : ℕ),
      dir = (if r st.rIdx < 0.5 then -1 else 1) →
      (if dir = 1 then
        buildTree m r st.positionPlus st.momentumPlus slice dir depth ss H0
          (st.rIdx + 1)
       else
        buildTree m r st.positionMinus st.momentumMinus slice dir depth ss H0
          (st.rIdx + 1)) = (tree, k2) →
      ¬ tree.stop →
      (doubleRound m r slice H0 ss depth st).1.proposed =
        (if r k2 < (tree.nValid : ℝ) / (st.nValid : ℝ)
         then tree.positionPrime else st.proposed)) := by
  constructor
  · intro m r q p slice dir depth ss H0 k t1 k1 pos2 mom2 t2 k2 ht1 hpos2
      hmom2 ht2 hns
    simp only [buildTree]
    rw [ht1, if_neg hns, ← hpos2, ← hmom2, ht2]
  · intro m r slice H0 ss depth st dir tree k2 hdir hbt hns
    subst hdir
    simp only [doubleRound]
    rw [hbt]
    by_cases hA : r k2 < (tree.nValid : ℝ) / (st.nValid : ℝ)
    · rw [if_pos ⟨hns, hA⟩, if_pos hA]
    · rw [if_neg fun hc => hA hc.2, if_neg hA]

/-- C1 witness: both selection rules applied at a concrete non-stopped
depth-0 subtree (trivial model, slice 1/2, forward direction). -/
theorem nuts_candidate_selection_witness :
    (¬ w1.1.stop ∧
      (buildTree mzero rhalf (fun _ => 0) (fun _ => 0) (1 / 2) 1 (0 + 1) 1 0
          0).1.positionPrime =
        (if rhalf w2.2 < (w2.1.nValid : ℝ) /
            ((max (w1.1.nValid + w2.1.nValid) 1 : ℕ) : ℝ)
         then w2.1.positionPrime else w1.1.positionPrime)) ∧
    (¬ wbt.1.stop ∧
      (doubleRound mzero rhalf (1 / 2) 0 1 0 wLoopSt).1.proposed =
        (if rhalf wbt.2 < (wbt.1.nValid : ℝ) / (wLoopSt.nValid : ℝ)
         then wbt.1.positionPrime else wLoopSt.proposed)) := by
  have hH : hamiltonian mzero
      (leapfrog mzero (fun _ => 0) (fun _ => 0) (((1 : ℤ) : ℝ) * 1)).1
      (leapfrog mzero (fun _ => 0) (fun _ => 0) (((1 : ℤ) : ℝ) * 1)).2
      = 0 := by
    rw [leaf_energy mzero (fun f x => rfl) rfl]
    norm_num [mzero]
  have hns1 : ¬ w1.1.stop := by
    intro hc
    rcases hc with hc | hc
    · exact hc (by rw [hH]; norm_num [Real.exp_zero])
    · rw [hH] at hc
      norm_num [deltaMax] at hc
  have hwdir : wdir = 1 := by
    rw [wdir, if_neg]
    norm_num [rhalf]
  have hbteq : wbt = buildTree mzero rhalf (fun _ => 0) (fun _ => 0) (1 / 2)
      1 0 1 0 (0 + 1) := by
    rw [wbt, hwdir, if_pos rfl]
    rfl
  have hns2 : ¬ wbt.1.stop := by
    rw [hbteq]
    intro hc
    rcases hc with hc | hc
    · exact hc (by rw [hH]; norm_num [Real.exp_zero])
    · rw [hH] at hc
      norm_num [deltaMax] at hc
  refine ⟨⟨hns1, ?_⟩, ⟨hns2, ?_⟩⟩
  · exact (nuts_candidate_selection Unit).1 mzero rhalf _ _ (1 / 2) 1 0 1 0 0
      w1.1 w1.2 w1pos2 w1mom2 w2.1 w2.2 rfl rfl rfl rfl hns1
  · exact (nuts_candidate_selection Unit).2 mzero rhalf (1 / 2) 0 1 0 wLoopSt
      wdir wbt.1 wbt.2 rfl rfl hns2

lemma buildTree_nLeapfrog_le {ι : Type} [DecidableEq ι] (m : MC.Model ι)
    (r : ℕ → ℝ) (slice : ℝ) (dir : ℤ) (ss H0 : ℝ) :
    ∀ (depth : ℕ) (q p : ι → ℝ) (k : ℕ),
      (buildTree m r q p slice dir depth ss H0 k).1.nLeapfrog ≤
        2 ^ depth := by
  intro depth
  induction depth with
  | zero => intro q p k; exact le_rfl
  | succ d ih =>
    intro q p k
    simp only [buildTree]
    by_cases hstop : (buildTree m r q p slice dir d ss H0 k).1.stop
    · rw [if_pos hstop]
      exact le_trans (ih q p k)
        (Nat.pow_le_pow_right (by norm_num) (Nat.le_succ d))
    · rw [if_neg hstop]
      refine le_trans (Nat.add_le_add (ih q p k) (ih _ _ _)) ?_
      rw [pow_succ]
      omega

lemma doubleRound_nLeapfrog_le {ι : Type} [DecidableEq ι] (m : MC.Model ι)
    (r : ℕ → ℝ) (slice H0 ss : ℝ) (depth : ℕ) (st : MC.NUTS.LoopState ι) :
    (doubleRound m r slice H0 ss depth st).1.nLeapfrog ≤
      st.nLeapfrog + 2 ^ depth := by
  have h : (doubleRound m r slice H0 ss depth st).1.nLeapfrog =
      st.nLeapfrog +
        (if (if r st.rIdx < 0.5 then (-1 : ℤ) else 1) = 1 then
          buildTree m r st.positionPlus st.momentumPlus slice
            (if r st.rIdx < 0.5 then (-1 : ℤ) else 1) depth ss H0
            (st.rIdx + 1)
        else
          buildTree m r st.positionMinus st.momentumMinus slice
            (if r st.rIdx < 0.5 then (-1 : ℤ) else 1) depth ss H0
            (st.rIdx + 1)).1.nLeapfrog := rfl
  rw [h]
  apply Nat.add_le_add_left
  by_cases hc : (if r st.rIdx < 0.5 then (-1 : ℤ) else 1) = 1
  · rw [if_pos hc]
    exact buildTree_nLeapfrog_le m r slice _ ss H0 depth _ _ _
  · rw [if_neg hc]
    exact buildTree_nLeapfrog_le m r slice _ ss H0 depth _ _ _

lemma doubleLoop_nLeapfrog_le {ι : Type} [DecidableEq ι] (m : MC.Model ι)
    (r : ℕ → ℝ) (slice H0 ss : ℝ) :
    ∀ (fuel depth : ℕ) (st : MC.NUTS.LoopState ι),
      (doubleLoop m r slice H0 ss depth fuel st).nLeapfrog + 2 ^ depth ≤
        st.nLeapfrog + 2 ^ (depth + fuel) := by
  intro fuel
  induction fuel with
  | zero =>
    intro depth st
    simp only [doubleLoop, Nat.add_zero]
    exact le_rfl
  | succ f ih =>
    intro depth st
    simp only [doubleLoop]
    have hrd1 : (doubleRound m r slice H0 ss depth st).1.nLeapfrog ≤
        st.nLeapfrog + 2 ^ depth :=
      doubleRound_nLeapfrog_le m r slice H0 ss depth st
    by_cases hs : (doubleRound m r slice H0 ss depth st).2
    · rw [if_pos hs]
      have hp : 2 ^ (depth + 1) ≤ 2 ^ (depth + (f + 1)) :=
        Nat.pow_le_pow_right (by norm_num) (by omega)
      have hq : (2 : ℕ) ^ (depth + 1) = 2 ^ depth + 2 ^ depth := by
        rw [pow_succ]
        omega
      omega
    · rw [if_neg hs]
      have hrec := ih (depth + 1) (doubleRound m r slice H0 ss depth st).1
      have hq : (2 : ℕ) ^ (depth + 1) = 2 ^ depth + 2 ^ depth := by
        rw [pow_succ]
        omega
      have hh : depth + 1 + f = depth + (f + 1) := by omega
      rw [hh] at hrec
      omega

/-- C7: a single outer iteration's doubling loop performs at most
`2^maxTreeDepth` leapfrog evaluations (in fact at most `2^d − 1`, the sum of
the subtree sizes at depths `0 … d−1`). -/
theorem nuts_leapfrog_depth_bound {ι : Type} [DecidableEq ι] (c : MC.NUTS)
    (m : MC.Model ι) (r g : ℕ → ℝ) (st : MC.NUTS.SamplerState ι)
    (hd : 1 ≤ c.maxTreeDepth) :
    (nutsLoop c m r g st).nLeapfrog ≤ 2 ^ c.maxTreeDepth := by
  have h := doubleLoop_nLeapfrog_le m r (nutsSlice m r g st)
    (nutsH0 m g st) st.stepSize c.maxTreeDepth 0
    { positionMinus := st.current, positionPlus := st.current,
      momentumMinus := nutsMomentum m g st,
      momentumPlus := nutsMomentum m g st,
      proposed := st.current, nValid := 1, alpha := 0, nAlpha := 0,
      nLeapfrog := 0, rIdx := st.rIdx + 1 }
  simp only [nutsLoop]
  simp only [pow_zero, Nat.zero_add] at h
  omega

/-- C7 witness: the bound applied to the concrete sampler with
`maxTreeDepth = 1` on the trivial model. -/
theorem nuts_leapfrog_depth_bound_witness :
    1 ≤ cexC.maxTreeDepth ∧
      (nutsLoop cexC mzero rhalf gzero cexInit).nLeapfrog ≤
        2 ^ cexC.maxTreeDepth :=
  ⟨le_rfl, nuts_leapfrog_depth_bound cexC mzero rhalf gzero cexInit le_rfl⟩

/-- C4: during warmup (`i < nWarmup`) one outer iteration updates the
dual-averaging state exactly by `η = 1/(i+1+t0)`,
`hBar ← (1−η)·hBar + η·(targetAcceptance − alpha/max(nAlpha,1))`,
`logStepSize ← μ − (√(i+1)/γ)·hBar`,
`logStepSizeBar ← (i+1)^(−κ)·logStepSize + (1−(i+1)^(−κ))·logStepSizeBar`,
`ε = exp(logStepSize)`; and the constructor sets `μ = log(10·ε0)`,
`γ = 0.05`, `t0 = 10`, `κ = 0.75` and stores the given target acceptance. -/
theorem nuts_dual_averaging_update {ι : Type} [DecidableEq ι] (c : MC.NUTS)
    (m : MC.Model ι) (r g : ℕ → ℝ) (nWarmup i : ℕ)
    (st : MC.NUTS.SamplerState ι) (hi : i < nWarmup) :
    (nutsStep c m r g nWarmup i st).hBar =
      (1 - 1 / ((i : ℝ) + 1 + c.t0)) * st.hBar +
        1 / ((i : ℝ) + 1 + c.t0) *
          (c.targetAcceptance - (nutsLoop c m r g st).alpha /
            ((max (nutsLoop c m r g st).nAlpha 1 : ℕ) : ℝ)) ∧
    (nutsStep c m r g nWarmup i st).logStepSize =
      c.mu - Real.sqrt ((i : ℝ) + 1) / c.gamma *
        (nutsStep c m r g nWarmup i st).hBar ∧
    (nutsStep c m r g nWarmup i st).logStepSizeBar =
      ((i : ℝ) + 1) ^ (-c.kappa) *
          (nutsStep c m r g nWarmup i st).logStepSize +
        (1 - ((i : ℝ) + 1) ^ (-c.kappa)) * st.logStepSizeBar ∧
    (nutsStep c m r g nWarmup i st).stepSize =
      Real.exp ((nutsStep c m r g nWarmup i st).logStepSize) ∧
    (∀ (s : ℝ) (d : ℕ) (t : ℝ), (MC.NUTS.new s d t).mu = Real.log (10 * s) ∧
      (MC.NUTS.new s d t).gamma = 0.05 ∧ (MC.NUTS.new s d t).t0 = 10 ∧
      (MC.NUTS.new s d t).kappa = 0.75 ∧
      (MC.NUTS.new s d t).targetAcceptance = t) := by
  refine ⟨?_, ?_, ?_, ?_, fun s d t => ⟨rfl, rfl, rfl, rfl, rfl⟩⟩ <;>
    simp only [nutsStep, if_pos hi]

/-- C4 witness: the update applied at a concrete warmup iteration (`i = 0`,
`nWarmup = 1`) of the concrete sampler on the trivial model. -/
theorem nuts_dual_averaging_update_witness :
    0 < 1 ∧
      (nutsStep cexC mzero rhalf gzero 1 0 cexInit).stepSize =
        Real.exp ((nutsStep cexC mzero rhalf gzero 1 0 cexInit).logStepSize) :=
  ⟨Nat.zero_lt_one,
    (nuts_dual_averaging_update cexC mzero rhalf gzero 1 0 cexInit
      Nat.zero_lt_one).2.2.2.1⟩

/-- C5 amended: the step size is frozen at the END of iteration
`i = nWarmup` to `exp(logStepSizeBar)` and the adapter state never changes
again: for every `n ≥ nWarmup + 1`, the state entering iteration `n` (and so
the step size every later iteration builds its trajectory with) has
`stepSize = exp(logStepSizeBar at the boundary)` and the same `hBar`,
`logStepSize`, `logStepSizeBar` as at the boundary.  (Iteration `i = nWarmup`
itself — the first post-warmup iteration — still builds its trajectory with
the last warmup step size `exp(logStepSize)`, not the frozen average; see the
counterexample.) -/
theorem nuts_stepSize_frozen_after_boundary {ι : Type} [DecidableEq ι]
    (c : MC.NUTS) (m : MC.Model ι) (r g : ℕ → ℝ) (nWarmup : ℕ)
    (init : MC.NUTS.SamplerState ι) :
    ∀ n, nWarmup + 1 ≤ n →
      (nutsRun c m r g nWarmup init n).stepSize =
        Real.exp ((nutsRun c m r g nWarmup init nWarmup).logStepSizeBar) ∧
      (nutsRun c m r g nWarmup init n).hBar =
        (nutsRun c m r g nWarmup init nWarmup).hBar ∧
      (nutsRun c m r g nWarmup init n).logStepSize =
        (nutsRun c m r g nWarmup init nWarmup).logStepSize ∧
      (nutsRun c m r g nWarmup init n).logStepSizeBar =
        (nutsRun c m r g nWarmup init nWarmup).logStepSizeBar := by
  intro n hn
  induction n, hn using Nat.le_induction with
  | base =>
    simp only [nutsRun, nutsStep, if_neg (lt_irrefl nWarmup), if_pos rfl]
    exact ⟨rfl, rfl, rfl, rfl⟩
  | succ n hn ih =>
    have hlt : ¬ (n < nWarmup) := by omega
    have hne : ¬ (n = nWarmup) := by omega
    simp only [nutsRun, nutsStep, if_neg hlt, if_neg hne]
    exact ih

/-- C5 witness: the frozen step size equality at a concrete run
(`nWarmup = 0`, state entering iteration 1). -/
theorem nuts_stepSize_frozen_after_boundary_witness :
    0 + 1 ≤ 1 ∧
      (nutsRun cexC mzero rhalf gzero 0 cexInit 1).stepSize =
        Real.exp ((nutsRun cexC mzero rhalf gzero 0 cexInit 0).logStepSizeBar) :=
  ⟨le_rfl,
    (nuts_stepSize_frozen_after_boundary cexC mzero rhalf gzero 0 cexInit 1
      le_rfl).1⟩

lemma cexMomentum (st : MC.NUTS.SamplerState Unit) :
    nutsMomentum mzero gzero st = fun _ => 0 := by
  funext x
  cases x
  simp [nutsMomentum, drawMomentum, mzero, gzero]

lemma cexH0 (st : MC.NUTS.SamplerState Unit) : nutsH0 mzero gzero st = 0 := by
  simp only [nutsH0, cexMomentum st, hamiltonian_unit mzero rfl]
  norm_num [mzero]

lemma cexSlice (st : MC.NUTS.SamplerState Unit) :
    nutsSlice mzero rhalf gzero st = 1 / 2 := by
  simp only [nutsSlice, cexH0 st]
  norm_num [rhalf, Real.exp_zero]

lemma cexBTstats (q : Unit → ℝ) (ss : ℝ) (k : ℕ) :
    (buildTree mzero rhalf q (fun _ => 0) (1 / 2) 1 0 ss 0 k).1.alpha = 1 ∧
    (buildTree mzero rhalf q (fun _ => 0) (1 / 2) 1 0 ss 0 k).1.nAlpha = 1 := by
  have hH : hamiltonian mzero
      (leapfrog mzero q (fun _ => 0) (((1 : ℤ) : ℝ) * ss)).1
      (leapfrog mzero q (fun _ => 0) (((1 : ℤ) : ℝ) * ss)).2 = 0 := by
    rw [leaf_energy mzero (fun f x => rfl) rfl]
    norm_num [mzero]
  constructor
  · have h : (buildTree mzero rhalf q (fun _ => 0) (1 / 2) 1 0 ss 0
        k).1.alpha =
        min 1 (Real.exp (0 - hamiltonian mzero
          (leapfrog mzero q (fun _ => 0) (((1 : ℤ) : ℝ) * ss)).1
          (leapfrog mzero q (fun _ => 0) (((1 : ℤ) : ℝ) * ss)).2)) := rfl
    rw [h, hH]
    norm_num [Real.exp_zero]
  · rfl

lemma doubleLoop_one {ι : Type} [DecidableEq ι] (m : MC.Model ι)
    (r : ℕ → ℝ) (slice H0 ss : ℝ) (depth : ℕ) (st : MC.NUTS.LoopState ι) :
    doubleLoop m r slice H0 ss depth 1 st =
      (doubleRound m r slice H0 ss depth st).1 := by
  show (if (doubleRound m r slice H0 ss depth st).2
      then (doubleRound m r slice H0 ss depth st).1
      else doubleLoop m r slice H0 ss (depth + 1) 0
        (doubleRound m r slice H0 ss depth st).1) =
    (doubleRound m r slice H0 ss depth st).1
  have h0 : doubleLoop m r slice H0 ss (depth + 1) 0
      (doubleRound m r slice H0 ss depth st).1 =
      (doubleRound m r slice H0 ss depth st).1 := rfl
  rw [h0, ite_self]

lemma cexRound (ss : ℝ) (st : MC.NUTS.LoopState Unit)
    (hmp : st.momentumPlus = fun _ => 0) :
    (doubleRound mzero rhalf (1 / 2) 0 ss 0 st).1.alpha = st.alpha + 1 ∧
    (doubleRound mzero rhalf (1 / 2) 0 ss 0 st).1.nAlpha = st.nAlpha + 1 := by
  have hdir : (if rhalf st.rIdx < 0.5 then (-1 : ℤ) else 1) = 1 := by
    rw [if_neg]
    norm_num [rhalf]
  have hα : (doubleRound mzero rhalf (1 / 2) 0 ss 0 st).1.alpha =
      st.alpha + (if (if rhalf st.rIdx < 0.5 then (-1 : ℤ) else 1) = 1 then
        buildTree mzero rhalf st.positionPlus st.momentumPlus (1 / 2)
          (if rhalf st.rIdx < 0.5 then (-1 : ℤ) else 1) 0 ss 0 (st.rIdx + 1)
      else
        buildTree mzero rhalf st.positionMinus st.momentumMinus (1 / 2)
          (if rhalf st.rIdx < 0.5 then (-1 : ℤ) else 1) 0 ss 0
          (st.rIdx + 1)).1.alpha := rfl
  have hn : (doubleRound mzero rhalf (1 / 2) 0 ss 0 st).1.nAlpha =
      st.nAlpha + (if (if rhalf st.rIdx < 0.5 then (-1 : ℤ) else 1) = 1 then
        buildTree mzero rhalf st.positionPlus st.momentumPlus (1 / 2)
          (if rhalf st.rIdx < 0.5 then (-1 : ℤ) else 1) 0 ss 0 (st.rIdx + 1)
      else
        buildTree mzero rhalf st.positionMinus st.momentumMinus (1 / 2)
          (if rhalf st.rIdx < 0.5 then (-1 : ℤ) else 1) 0 ss 0
          (st.rIdx + 1)).1.nAlpha := rfl
  constructor
  · rw [hα]
    simp only [hdir, if_pos]
    rw [hmp, (cexBTstats st.positionPlus ss (st.rIdx + 1)).1]
  · rw [hn]
    simp only [hdir, if_pos]
    rw [hmp, (cexBTstats st.positionPlus ss (st.rIdx + 1)).2]

lemma cexLoop (st : MC.NUTS.SamplerState Unit) :
    (nutsLoop cexC mzero rhalf gzero st).alpha = 1 ∧
    (nutsLoop cexC mzero rhalf gzero st).nAlpha = 1 := by
  simp only [nutsLoop, cexMomentum st, cexH0 st, cexSlice st]
  rw [show cexC.maxTreeDepth = 1 from rfl]
  rw [doubleLoop_one]
  refine ⟨?_, ?_⟩
  · rw [(cexRound st.stepSize _ rfl).1]
    norm_num
  · rw [(cexRound st.stepSize _ rfl).2]

lemma cexState1 :
    (nutsRun cexC mzero rhalf gzero 2 cexInit 1).hBar = -(1 / 55) ∧
    (nutsRun cexC mzero rhalf gzero 2 cexInit 1).logStepSizeBar = 4 / 11 := by
  have h02 : (0 : ℕ) < 2 := by norm_num
  have hloop := cexLoop cexInit
  constructor
  · show (nutsStep cexC mzero rhalf gzero 2 0 cexInit).hBar = -(1 / 55)
    simp only [nutsStep, if_pos h02]
    rw [hloop.1, hloop.2]
    norm_num [cexC, MC.NUTS.new, cexInit, MC.NUTS.initState]
  · show (nutsStep cexC mzero rhalf gzero 2 0 cexInit).logStepSizeBar = 4 / 11
    simp only [nutsStep, if_pos h02]
    rw [hloop.1, hloop.2]
    norm_num [cexC, MC.NUTS.new, cexInit, MC.NUTS.initState, Real.sqrt_one,
      Real.log_one, Real.one_rpow]

lemma cexState2 :
    (nutsRun cexC mzero rhalf gzero 2 cexInit 2).stepSize =
      Real.exp (2 / 3 * Real.sqrt 2) ∧
    (nutsRun cexC mzero rhalf gzero 2 cexInit 2).logStepSizeBar =
      (2 : ℝ) ^ (-(0.75 : ℝ)) * (2 / 3 * Real.sqrt 2) +
        (1 - (2 : ℝ) ^ (-(0.75 : ℝ))) * (4 / 11) := by
  have h12 : (1 : ℕ) < 2 := by norm_num
  obtain ⟨hB1, hbar1⟩ := cexState1
  have hloop := cexLoop (nutsRun cexC mzero rhalf gzero 2 cexInit 1)
  have hB2 : (nutsStep cexC mzero rhalf gzero 2 1
      (nutsRun cexC mzero rhalf gzero 2 cexInit 1)).hBar = -(1 / 30) := by
    simp only [nutsStep, if_pos h12]
    rw [hloop.1, hloop.2, hB1]
    norm_num [cexC, MC.NUTS.new]
  have hrel : (nutsStep cexC mzero rhalf gzero 2 1
      (nutsRun cexC mzero rhalf gzero 2 cexInit 1)).logStepSize =
      cexC.mu - Real.sqrt (((1 : ℕ) : ℝ) + 1) / cexC.gamma *
        (nutsStep cexC mzero rhalf gzero 2 1
          (nutsRun cexC mzero rhalf gzero 2 cexInit 1)).hBar := by
    simp only [nutsStep, if_pos h12]
  have hL2 : (nutsStep cexC mzero rhalf gzero 2 1
      (nutsRun cexC mzero rhalf gzero 2 cexInit 1)).logStepSize =
      2 / 3 * Real.sqrt 2 := by
    rw [hrel, hB2]
    have h2 : ((1 : ℕ) : ℝ) + 1 = 2 := by norm_num
    rw [h2]
    norm_num [cexC, MC.NUTS.new, Real.log_one]
    ring
  have hrelbar : (nutsStep cexC mzero rhalf gzero 2 1
      (nutsRun cexC mzero rhalf gzero 2 cexInit 1)).logStepSizeBar =
      (((1 : ℕ) : ℝ) + 1) ^ (-cexC.kappa) *
          (nutsStep cexC mzero rhalf gzero 2 1
            (nutsRun cexC mzero rhalf gzero 2 cexInit 1)).logStepSize +
        (1 - (((1 : ℕ) : ℝ) + 1) ^ (-cexC.kappa)) *
          (nutsRun cexC mzero rhalf gzero 2 cexInit 1).logStepSizeBar := by
    simp only [nutsStep, if_pos h12]
  constructor
  · show (nutsStep cexC mzero rhalf gzero 2 1
      (nutsRun cexC mzero rhalf gzero 2 cexInit 1)).stepSize =
      Real.exp (2 / 3 * Real.sqrt 2)
    have hses : (nutsStep cexC mzero rhalf gzero 2 1
        (nutsRun cexC mzero rhalf gzero 2 cexInit 1)).stepSize =
        Real.exp ((nutsStep cexC mzero rhalf gzero 2 1
          (nutsRun cexC mzero rhalf gzero 2 cexInit 1)).logStepSize) := by
      simp only [nutsStep, if_pos h12]
    rw [hses, hL2]
  · show (nutsStep cexC mzero rhalf gzero 2 1
      (nutsRun cexC mzero rhalf gzero 2 cexInit 1)).logStepSizeBar =
      (2 : ℝ) ^ (-(0.75 : ℝ)) * (2 / 3 * Real.sqrt 2) +
        (1 - (2 : ℝ) ^ (-(0.75 : ℝ))) * (4 / 11)
    rw [hrelbar, hL2, hbar1]
    have h2 : ((1 : ℕ) : ℝ) + 1 = 2 := by norm_num
    rw [h2]
    norm_num [cexC, MC.NUTS.new]

/-- C5 counterexample: with `nWarmup = 2` on the trivial model, the state
entering iteration `i = 2 = nWarmup` — the first post-warmup iteration, whose
sample is stored — still carries the last warmup step size
`exp(logStepSize) = exp(2√2/3)`, which differs from the frozen value
`exp(logStepSizeBar)`: the freeze only happens at the END of iteration
`nWarmup`, so iteration `nWarmup` itself builds its trajectory with an
unfrozen step size, contradicting "every i ≥ nWarmup builds its trajectory
using this frozen step size". -/
theorem nuts_freeze_claim_false :
    (nutsRun cexC mzero rhalf gzero 2 cexInit 2).stepSize ≠
      Real.exp ((nutsRun cexC mzero rhalf gzero 2 cexInit 2).logStepSizeBar) := by
  obtain ⟨hss, hbar⟩ := cexState2
  rw [hss, hbar]
  intro heq
  have heq2 : 2 / 3 * Real.sqrt 2 =
      (2 : ℝ) ^ (-(0.75 : ℝ)) * (2 / 3 * Real.sqrt 2) +
        (1 - (2 : ℝ) ^ (-(0.75 : ℝ))) * (4 / 11) := Real.exp_eq_exp.mp heq
  have hL : (2 : ℝ) ^ (-(0.75 : ℝ)) < 1 :=
    Real.rpow_lt_one_of_one_lt_of_neg (by norm_num) (by norm_num)
  have hs : (1 : ℝ) ≤ Real.sqrt 2 := by
    rw [show (1 : ℝ) = Real.sqrt 1 from Real.sqrt_one.symm]
    exact Real.sqrt_le_sqrt (by norm_num)
  nlinarith [heq2, hL, hs,
    mul_pos (sub_pos.mpr hL)
      (show (0 : ℝ) < 2 / 3 * Real.sqrt 2 - 4 / 11 by nlinarith [hs])]
